import Mathlib

/-
Verification of the procmd crate (pipeline description and execution engine)
against its natural-language specification.  The runner (`PipeCommand` in
src/procmd/src/lib.rs) is embedded in namespace `Procmd`; the description
parser of the procmd_macro crate (src/procmd_macro/src/lib.rs) is embedded in
namespace `ProcmdDsl`.
-/

set_option linter.unusedVariables false

namespace Procmd

/-- Stream configuration of a stdio slot: the `std::process::Stdio` values the
crate uses (`inherit` is the default, `piped` is `Stdio::piped()`), plus the
handle form used when a previous child's captured stdout is attached via
`command.stdin(child.stdout.unwrap())`; `handle` records which stage produced
the stream. -/
inductive Stdio where
  | inherit : Stdio
  | piped : Stdio
  | childStdout (handle : Nat) : Stdio
  deriving DecidableEq

/-- Models `std::process::Command` as configured by this crate: the program
name, the argument list, and the stdio configuration attached so far by
`Command::stdin` / `Command::stdout` calls. -/
structure Command where
  program : String
  args : List String
  stdinCfg : Stdio
  stdoutCfg : Stdio
  deriving DecidableEq

/-- Models `std::process::Child` as used by the crate: the stage index the
child was spawned for, and its `stdout` field, which is `some` (a readable
handle, identified by the producing stage) exactly when the command's stdout
was configured as `Stdio::piped()` before spawning. -/
structure Child where
  stage : Nat
  stdout : Option Nat
  deriving DecidableEq

/-- Observable OS-level actions performed by the runner: spawning a stage,
waiting on (reaping) a stage, killing a stage.  The embedding records them in
a trace so that ordering and reaping claims can be stated. -/
inductive Event where
  | spawned (i : Nat) : Event
  | waited (i : Nat) : Event
  | killed (i : Nat) : Event
  deriving DecidableEq

/-- Failure modes of an execution operation.  `emptyPanic` models the runtime
panic documented by `PipeCommand::run` for an empty `commands` array (the
`commands_len - 1` usize underflow / out-of-range slice `[..commands_len - 1]`);
`unwrapPanic` models a panic of `child.stdout.unwrap()`; `spawnError i` models
the `io::Error` propagated by `command.spawn()?` when the OS refuses to spawn
stage `i`. -/
inductive RunError where
  | emptyPanic : RunError
  | unwrapPanic : RunError
  | spawnError (i : Nat) : RunError
  deriving DecidableEq

/-- The three terminal actions passed to `PipeCommand::run` as the closure
`f`: `Command::spawn`, `Command::output`, `Command::status`. -/
inductive TermAction where
  | spawn : TermAction
  | output : TermAction
  | status : TermAction
  deriving DecidableEq

/-- What the chosen terminal action returns: the `Child` handle for `spawn`,
the collected `Output` of stage `i` for `output`, the `ExitStatus` of stage
`i` for `status` (output and status are opaque to the library, so they are
identified by the stage that produced them). -/
inductive TermResult where
  | handle (c : Child) : TermResult
  | outputOf (i : Nat) : TermResult
  | statusOf (i : Nat) : TermResult
  deriving DecidableEq

/-- The opaque process-spawning capability (`Command::spawn`).  `spawnOk i`
says whether the OS accepts spawning stage `i` (executable exists, resources
available); on success the returned child's `stdout` field is populated
exactly when the command's stdout was configured as piped. -/
def spawnProcess (spawnOk : Nat → Bool) (i : Nat) (c : Command) : Option Child :=
  if spawnOk i then some ⟨i, if c.stdoutCfg = Stdio.piped then some i else none⟩ else none

/-- The statement `if let Some(child) = child { command.stdin(child.stdout.unwrap()); }`
of `PipeCommand::run`: when a previously spawned child exists, unwrap its
stdout handle (a panic if absent, evaluated before the `stdin` call mutates
the command) and attach it as this command's stdin source. -/
def attachStdin (c : Command) : Option Child → Except RunError Command
  | none => Except.ok c
  | some ch =>
    match ch.stdout with
    | none => Except.error RunError.unwrapPanic
    | some h => Except.ok { c with stdinCfg := Stdio.childStdout h }

/-- The `for (i, command) in self.commands[..commands_len - 1].iter_mut().enumerate()`
loop of `PipeCommand::run`, acting on the prefix of the command array that
excludes the last command.  `n` is `commands_len`, `i` the enumeration index
of the first command of `pre`, `child` the previously spawned child.  Returns
the commands of the prefix in their final (possibly mutated) state, the trace
of OS events, and either the propagated failure or the child carried out of
the loop. -/
def runLoop (spawnOk : Nat → Bool) (n : Nat) :
    List Command → Nat → Option Child →
    List Command × List Event × Except RunError (Option Child)
  | [], _, child => ([], [], Except.ok child)
  | c :: rest, i, child =>
    match attachStdin c child with
    | Except.error e => (c :: rest, [], Except.error e)
    | Except.ok c1 =>
      if i = n - 1 then
        (c1 :: rest, [], Except.ok child)
      else
        let c2 := { c1 with stdoutCfg := Stdio.piped }
        match spawnProcess spawnOk i c2 with
        | none => (c2 :: rest, [], Except.error (RunError.spawnError i))
        | some ch =>
          match runLoop spawnOk n rest (i + 1) (some ch) with
          | (cs, evs, res) => (c2 :: cs, Event.spawned i :: evs, res)

/-- The call `f(&mut self.commands[commands_len - 1])` of `PipeCommand::run`,
for each of the three closures actually passed (`PipeCommand::spawn`,
`PipeCommand::output`, `PipeCommand::status`).  `Command::spawn` spawns with
the configured stdio; `Command::status` spawns and waits; `Command::output`
spawns with stdout captured (piped), waits and collects.  Returns the final
state of the command, the OS events, and the action's result. -/
def terminalAction (spawnOk : Nat → Bool) (act : TermAction) (i : Nat) (c : Command) :
    Command × List Event × Except RunError TermResult :=
  match act with
  | TermAction.spawn =>
    match spawnProcess spawnOk i c with
    | none => (c, [], Except.error (RunError.spawnError i))
    | some ch => (c, [Event.spawned i], Except.ok (TermResult.handle ch))
  | TermAction.status =>
    match spawnProcess spawnOk i c with
    | none => (c, [], Except.error (RunError.spawnError i))
    | some ch => (c, [Event.spawned i, Event.waited i], Except.ok (TermResult.statusOf i))
  | TermAction.output =>
    match spawnProcess spawnOk i { c with stdoutCfg := Stdio.piped } with
    | none => (c, [], Except.error (RunError.spawnError i))
    | some ch => (c, [Event.spawned i, Event.waited i], Except.ok (TermResult.outputOf i))

/-- `PipeCommand::run` itself.  On an empty command array the expression
`commands_len - 1` underflows (debug) or the slice `[..commands_len - 1]` is
out of range (release): a panic, before anything is spawned, modelled by
`RunError.emptyPanic`.  Otherwise the loop runs over all commands but the
last, and the terminal action is invoked on the untouched last command.
Returns the final state of all commands, the event trace, and the result. -/
def run (spawnOk : Nat → Bool) (act : TermAction) :
    List Command → List Command × List Event × Except RunError TermResult
  | [] => ([], [], Except.error RunError.emptyPanic)
  | c0 :: cs =>
    match runLoop spawnOk (c0 :: cs).length ((c0 :: cs).dropLast) 0 none with
    | (pre, evs, Except.error e) =>
      (pre ++ [(c0 :: cs).getLast (List.cons_ne_nil c0 cs)], evs, Except.error e)
    | (pre, evs, Except.ok _) =>
      match terminalAction spawnOk act ((c0 :: cs).length - 1)
          ((c0 :: cs).getLast (List.cons_ne_nil c0 cs)) with
      | (lst, evs2, r) => (pre ++ [lst], evs ++ evs2, r)

/-- Models `pub struct PipeCommand<const N: usize> { pub commands: [Command; N] }`
(the fixed-size array is embedded as a list; the length plays the role of `N`). -/
structure PipeCommand where
  commands : List Command

/-- `PipeCommand::spawn`: run with `|command| command.spawn()`. -/
def PipeCommand.spawn (spawnOk : Nat → Bool) (p : PipeCommand) :
    List Command × List Event × Except RunError TermResult :=
  run spawnOk TermAction.spawn p.commands

/-- `PipeCommand::output`: run with `|command| command.output()`. -/
def PipeCommand.output (spawnOk : Nat → Bool) (p : PipeCommand) :
    List Command × List Event × Except RunError TermResult :=
  run spawnOk TermAction.output p.commands

/-- `PipeCommand::status`: run with `|command| command.status()`. -/
def PipeCommand.status (spawnOk : Nat → Bool) (p : PipeCommand) :
    List Command × List Event × Except RunError TermResult :=
  run spawnOk TermAction.status p.commands

/-- Invariant maintained for the `child` variable of the loop: if a child is
present, its `stdout` field is populated. -/
def childInv : Option Child → Prop
  | none => True
  | some ch => ch.stdout.isSome = true

/-- Helper for stating claim C10: whether a run result is the modelled
`child.stdout.unwrap()` panic. -/
def isUnwrapPanic : Except RunError TermResult → Bool
  | Except.error RunError.unwrapPanic => true
  | _ => false

/-- Stage indices of the spawn events of a trace, in trace order. -/
def spawnIdxs : List Event → List Nat
  | [] => []
  | Event.spawned i :: r => i :: spawnIdxs r
  | _ :: r => spawnIdxs r

/-- Whether an event is a spawn event. -/
def isSpawnEvent : Event → Bool
  | Event.spawned _ => true
  | _ => false

/-- The immutable part of a stage descriptor: its program name and argument
list, the data claim C8 asserts is never mutated by execution. -/
def progArgs (c : Command) : String × List String := (c.program, c.args)

/-- Modelled from the spec: directly executing one process (spec section 8,
"directly spawning/capturing/waiting on that one process"): apply the chosen
action to the sole command as is, with no piping, no redirection and no other
process involved.  Written from the specification's words as the reference
behaviour that a single-stage pipeline must coincide with (claim C6). -/
def directSingle (spawnOk : Nat → Bool) (act : TermAction) (c : Command) :
    List Event × Except RunError TermResult :=
  match act with
  | TermAction.spawn =>
    match spawnProcess spawnOk 0 c with
    | none => ([], Except.error (RunError.spawnError 0))
    | some ch => ([Event.spawned 0], Except.ok (TermResult.handle ch))
  | TermAction.status =>
    match spawnProcess spawnOk 0 c with
    | none => ([], Except.error (RunError.spawnError 0))
    | some ch => ([Event.spawned 0, Event.waited 0], Except.ok (TermResult.statusOf 0))
  | TermAction.output =>
    match spawnProcess spawnOk 0 { c with stdoutCfg := Stdio.piped } with
    | none => ([], Except.error (RunError.spawnError 0))
    | some ch => ([Event.spawned 0, Event.waited 0], Except.ok (TermResult.outputOf 0))

/-- Helper for stating claim C9: an event the runner is allowed to emit while
never reaping or killing a non-terminal stage of a pipeline with `n` stages:
any spawn, a wait only on the terminal stage `n - 1`, and never a kill. -/
def reapFree (n : Nat) : Event → Bool
  | Event.spawned _ => true
  | Event.waited j => decide (j = n - 1)
  | Event.killed _ => false

end Procmd

namespace ProcmdDsl

/-- Token-level view of the input of the `cmd!` procedural macro
(src/procmd_macro/src/lib.rs): an opaque expression (a `syn::Expr`, recorded
by its display text), the comma separator, or the pipe separator token `=>`. -/
inductive Tok where
  | expr (s : String) : Tok
  | comma : Tok
  | arrow : Tok
  deriving DecidableEq

/-- Models `struct Command { program: syn::Expr, args: Vec<syn::Expr> }` of
the procmd_macro crate: one stage descriptor, program plus ordered argument
expressions. -/
structure Command where
  program : String
  args : List String
  deriving DecidableEq

/-- Parse failures of the macro input (`syn::Error`): an expression was
expected but absent, or the `=>` separator was expected but absent. -/
inductive ParseError where
  | expectedExpr : ParseError
  | expectedArrow : ParseError
  deriving DecidableEq

/-- The tail of `Punctuated::<syn::Expr, Token![,]>::parse_separated_nonempty`
after the first expression has been read: while the next token is a comma,
consume it and demand another expression (failing like syn does when the
comma is not followed by an expression); stop at the first non-comma token,
returning the collected expressions and the unconsumed remainder. -/
def parseArgsRest : List Tok → Except ParseError (List String × List Tok)
  | Tok.comma :: Tok.expr s :: rest =>
    match parseArgsRest rest with
    | Except.ok (as, r) => Except.ok (s :: as, r)
    | Except.error e => Except.error e
  | Tok.comma :: _ => Except.error ParseError.expectedExpr
  | rest => Except.ok ([], rest)

/-- `impl Parse for Command`: parse a nonempty comma-separated expression
list; the first expression is the program, the remainder the arguments. -/
def parseCommand : List Tok → Except ParseError (Command × List Tok)
  | Tok.expr s :: rest =>
    match parseArgsRest rest with
    | Except.ok (as, r) => Except.ok (⟨s, as⟩, r)
    | Except.error e => Except.error e
  | _ => Except.error ParseError.expectedExpr

/-- The `while !input.is_empty() { <Token![=>]>::parse(input)?; commands.push(Command::parse(input)?); }`
loop of `impl Parse for Commands`, embedded with explicit fuel (the loop
terminates because each iteration consumes input; every lemma assumes the
fuel dominates the input length, which the entry point guarantees). -/
def parseCommandsRest : Nat → List Tok → Except ParseError (List Command)
  | _, [] => Except.ok []
  | 0, _ :: _ => Except.error ParseError.expectedArrow
  | fuel + 1, Tok.arrow :: rest =>
    match parseCommand rest with
    | Except.error e => Except.error e
    | Except.ok (c, r) =>
      match parseCommandsRest fuel r with
      | Except.error e => Except.error e
      | Except.ok cs => Except.ok (c :: cs)
  | _ + 1, Tok.comma :: _ => Except.error ParseError.expectedArrow
  | _ + 1, Tok.expr _ :: _ => Except.error ParseError.expectedArrow

/-- `impl Parse for Commands` (the grammar accepted by the `cmd!` macro):
one command, then zero or more `=>`-prefixed commands until the input is
exhausted; the result is nonempty by construction (`Vec1`). -/
def parseCommands (ts : List Tok) : Except ParseError (List Command) :=
  match parseCommand ts with
  | Except.error e => Except.error e
  | Except.ok (c, r) =>
    match parseCommandsRest ts.length r with
    | Except.error e => Except.error e
    | Except.ok cs => Except.ok (c :: cs)

/-- Checker for the continuation of the pipeline grammar after an expression
has just been read: the remainder must be empty or a separator (comma or
`=>`) followed by an expression, repeatedly.  A token list `ts` matches the
grammar `pipeline := stage ("=>" stage)*, stage := expr ("," expr)*` exactly
when it is an expression followed by a remainder accepted here. -/
def wfAfterExpr : List Tok → Bool
  | [] => true
  | Tok.comma :: Tok.expr _ :: rest => wfAfterExpr rest
  | Tok.arrow :: Tok.expr _ :: rest => wfAfterExpr rest
  | _ => false

/-- Whether a token list matches the pipeline grammar
`pipeline := stage ("=>" stage)*, stage := expr ("," expr)*`. -/
def wfPipeline : List Tok → Bool
  | Tok.expr _ :: rest => wfAfterExpr rest
  | _ => false

/-- Whether a parse outcome is a failure. -/
def isError : Except ParseError (List Command) → Bool
  | Except.error _ => true
  | Except.ok _ => false

/-- Whether a parse outcome is a success carrying a nonempty stage sequence. -/
def okNonempty : Except ParseError (List Command) → Bool
  | Except.ok (_ :: _) => true
  | _ => false

/-- The failure conditions enumerated by the specification sentence behind
claim C5, read over the token-level input: the overall input is empty, some
stage specification (a maximal `=>`-free segment) is empty, or the pipe
separator appears with no following stage (a trailing `=>`). -/
def claimedFailure (ts : List Tok) : Bool :=
  decide (ts = []) || decide ([] ∈ ts.splitOn Tok.arrow) ||
    decide (ts.getLast? = some Tok.arrow)

/-- Scaffold for relating the parser to the grammar: the outcome of finishing
a parse whose pending position sits just after an expression, with `fuel`
driving the command loop. -/
def okTailB (fuel : Nat) (rest : List Tok) : Bool :=
  match parseArgsRest rest with
  | Except.error _ => false
  | Except.ok (_, r) =>
    match parseCommandsRest fuel r with
    | Except.error _ => false
    | Except.ok _ => true

end ProcmdDsl

namespace Procmd

theorem dropLast_drop_getLast (l : List Command) (h : l ≠ []) (k : Nat)
    (hk : k + 1 ≤ l.length) :
    l.dropLast.drop k ++ [l.getLast h] = l.drop k := by
  conv_rhs => rw [← List.dropLast_append_getLast h]
  rw [List.drop_append_of_le_length]
  rw [List.length_dropLast]
  omega

theorem runLoop_trace (spawnOk : Nat → Bool) (n : Nat) :
    ∀ (pre : List Command) (i : Nat) (child : Option Child),
      i + pre.length + 1 ≤ n →
      ∃ m, m ≤ pre.length ∧
        (runLoop spawnOk n pre i child).2.1 = (List.range' i m).map Event.spawned ∧
        (∀ c, (runLoop spawnOk n pre i child).2.2 = Except.ok c → m = pre.length) := by
  intro pre
  induction pre with
  | nil =>
    intro i child hn
    exact ⟨0, by simp [runLoop], by simp [runLoop], by simp [runLoop]⟩
  | cons c rest ih =>
    intro i child hn
    have hine : ¬ (i = n - 1) := by simp only [List.length_cons] at hn; omega
    cases hatt : attachStdin c child with
    | error e =>
      refine ⟨0, by simp, ?_, ?_⟩ <;> simp [runLoop, hatt]
    | ok c1 =>
      cases hsp : spawnProcess spawnOk i { c1 with stdoutCfg := Stdio.piped } with
      | none =>
        refine ⟨0, by simp, ?_, ?_⟩ <;> simp [runLoop, hatt, hine, hsp]
      | some ch =>
        obtain ⟨m, hm, htr, hok⟩ := ih (i + 1) (some ch)
          (by simp only [List.length_cons] at hn; omega)
        rcases hrec : runLoop spawnOk n rest (i + 1) (some ch) with ⟨cs, evs, res⟩
        rw [hrec] at htr hok
        refine ⟨m + 1, by simp; omega, ?_, ?_⟩
        · simp [runLoop, hatt, hine, hsp, hrec, List.range'_succ]
          exact htr
        · intro c' hc'
          simp only [runLoop, hatt, hine, hsp, hrec] at hc'
          simp only [List.length_cons]
          have := hok c' (by simpa using hc')
          omega

end Procmd

namespace Procmd

theorem runLoop_fail (spawnOk : Nat → Bool) (n : Nat) :
    ∀ (pre : List Command) (i : Nat) (child : Option Child) (k : Nat),
      childInv child →
      i + pre.length + 1 ≤ n →
      k < pre.length →
      (∀ j, j < k → spawnOk (i + j) = true) →
      spawnOk (i + k) = false →
      ∃ cs, runLoop spawnOk n pre i child =
          (cs, (List.range' i k).map Event.spawned,
            Except.error (RunError.spawnError (i + k))) ∧
        cs.length = pre.length ∧ cs.drop (k + 1) = pre.drop (k + 1) := by
  intro pre
  induction pre with
  | nil =>
    intro i child k hinv hn hk hok hfail
    simp at hk
  | cons c rest ih =>
    intro i child k hinv hn hk hok hfail
    have hine : ¬ (i = n - 1) := by simp only [List.length_cons] at hn; omega
    have hatt : ∃ c1, attachStdin c child = Except.ok c1 := by
      cases child with
      | none => exact ⟨c, rfl⟩
      | some ch =>
        simp only [childInv, Option.isSome_iff_exists] at hinv
        obtain ⟨h, hh⟩ := hinv
        exact ⟨{ c with stdinCfg := Stdio.childStdout h }, by simp [attachStdin, hh]⟩
    obtain ⟨c1, hatt⟩ := hatt
    cases k with
    | zero =>
      have hsp : spawnProcess spawnOk i { c1 with stdoutCfg := Stdio.piped } = none := by
        simp only [Nat.add_zero] at hfail
        simp [spawnProcess, hfail]
      refine ⟨{ c1 with stdoutCfg := Stdio.piped } :: rest, ?_, by simp, by simp⟩
      simp [runLoop, hatt, hine, hsp]
    | succ k' =>
      have hsp : spawnProcess spawnOk i { c1 with stdoutCfg := Stdio.piped } =
          some ⟨i, some i⟩ := by
        have h0 : spawnOk i = true := by
          have := hok 0 (by omega); simpa using this
        simp [spawnProcess, h0]
      obtain ⟨cs, hrec, hlen, hdrop⟩ := ih (i + 1) (some ⟨i, some i⟩) k'
        (by simp [childInv])
        (by simp only [List.length_cons] at hn; omega)
        (by simp only [List.length_cons] at hk; omega)
        (by intro j hj
            have h2 := hok (j + 1) (by omega)
            have h3 : i + (j + 1) = i + 1 + j := by omega
            rw [h3] at h2; exact h2)
        (by have : i + 1 + k' = i + (k' + 1) := by omega
            rw [this]; exact hfail)
      refine ⟨{ c1 with stdoutCfg := Stdio.piped } :: cs, ?_, by simp [hlen], ?_⟩
      · have hidx : i + 1 + k' = i + (k' + 1) := by omega
        simp [runLoop, hatt, hine, hsp, hrec, List.range'_succ, hidx]
      · simpa using hdrop

theorem runLoop_no_unwrap (spawnOk : Nat → Bool) (n : Nat) :
    ∀ (pre : List Command) (i : Nat) (child : Option Child),
      childInv child →
      (runLoop spawnOk n pre i child).2.2 ≠ Except.error RunError.unwrapPanic := by
  intro pre
  induction pre with
  | nil => intro i child hinv; simp [runLoop]
  | cons c rest ih =>
    intro i child hinv
    have hatt : ∃ c1, attachStdin c child = Except.ok c1 := by
      cases child with
      | none => exact ⟨c, rfl⟩
      | some ch =>
        simp only [childInv, Option.isSome_iff_exists] at hinv
        obtain ⟨h, hh⟩ := hinv
        exact ⟨{ c with stdinCfg := Stdio.childStdout h }, by simp [attachStdin, hh]⟩
    obtain ⟨c1, hatt⟩ := hatt
    by_cases hine : i = n - 1
    · simp [runLoop, hatt, hine]
    · cases hso : spawnOk i with
      | false =>
        have hsp : spawnProcess spawnOk i { c1 with stdoutCfg := Stdio.piped } = none := by
          simp [spawnProcess, hso]
        simp [runLoop, hatt, hine, hsp]
      | true =>
        have hsp : spawnProcess spawnOk i { c1 with stdoutCfg := Stdio.piped } =
            some ⟨i, some i⟩ := by
          simp [spawnProcess, hso]
        rcases hrec : runLoop spawnOk n rest (i + 1) (some ⟨i, some i⟩) with ⟨cs, evs, res⟩
        have htail := ih (i + 1) (some ⟨i, some i⟩) (by simp [childInv])
        rw [hrec] at htail
        simp only [runLoop, hatt, hine, hsp, hrec]
        simpa using htail

theorem runLoop_preserves (spawnOk : Nat → Bool) (n : Nat) :
    ∀ (pre : List Command) (i : Nat) (child : Option Child),
      ((runLoop spawnOk n pre i child).1).map progArgs = pre.map progArgs := by
  intro pre
  induction pre with
  | nil => intro i child; simp [runLoop]
  | cons c rest ih =>
    intro i child
    cases hatt : attachStdin c child with
    | error e => simp [runLoop, hatt]
    | ok c1 =>
      have hc1 : progArgs c1 = progArgs c := by
        cases child with
        | none =>
          have hce : c = c1 := by simpa [attachStdin] using hatt
          rw [← hce]
        | some ch =>
          simp only [attachStdin] at hatt
          cases hh : ch.stdout with
          | none => rw [hh] at hatt; simp at hatt
          | some h =>
            rw [hh] at hatt
            simp at hatt
            rw [← hatt]
            simp [progArgs]
      have hc2 : progArgs { c1 with stdoutCfg := Stdio.piped } = progArgs c := by
        simpa [progArgs] using hc1
      by_cases hine : i = n - 1
      · simp [runLoop, hatt, hine, hc1]
      · cases hsp : spawnProcess spawnOk i { c1 with stdoutCfg := Stdio.piped } with
        | none =>
          simp [runLoop, hatt, hine, hsp, hc2]
        | some ch =>
          rcases hrec : runLoop spawnOk n rest (i + 1) (some ch) with ⟨cs, evs, res⟩
          have htail := ih (i + 1) (some ch)
          rw [hrec] at htail
          simp only at htail
          simp [runLoop, hatt, hine, hsp, hrec, hc2, htail]

end Procmd

namespace Procmd

theorem terminalAction_fst (spawnOk : Nat → Bool) (act : TermAction) (i : Nat) (c : Command) :
    (terminalAction spawnOk act i c).1 = c := by
  cases act with
  | spawn => cases h : spawnProcess spawnOk i c <;> simp [terminalAction, h]
  | status => cases h : spawnProcess spawnOk i c <;> simp [terminalAction, h]
  | output => cases h : spawnProcess spawnOk i { c with stdoutCfg := Stdio.piped } <;>
      simp [terminalAction, h]

theorem run_trace_cases (spawnOk : Nat → Bool) (act : TermAction) (cmds : List Command) :
    ∃ m, m ≤ cmds.length ∧
      ((run spawnOk act cmds).2.1 = (List.range m).map Event.spawned ∨
       (run spawnOk act cmds).2.1 =
         (List.range m).map Event.spawned ++ [Event.waited (cmds.length - 1)]) := by
  cases cmds with
  | nil => exact ⟨0, by simp, Or.inl (by simp [run])⟩
  | cons c0 cs =>
    obtain ⟨m, hm, htr, hok⟩ := runLoop_trace spawnOk (c0 :: cs).length
      ((c0 :: cs).dropLast) 0 none (by simp)
    rcases hrl : runLoop spawnOk (c0 :: cs).length ((c0 :: cs).dropLast) 0 none
      with ⟨pre, evs, res⟩
    rw [hrl] at htr hok
    simp only at htr hok
    have hm2 : m ≤ (c0 :: cs).length := by
      simp only [List.length_dropLast] at hm
      simp only [List.length_cons] at hm ⊢
      omega
    cases res with
    | error e =>
      refine ⟨m, hm2, Or.inl ?_⟩
      simp only [run, hrl]
      rw [List.range_eq_range']
      exact htr
    | ok child =>
      have hmlen : m = cs.length := by
        have := hok child rfl
        simpa using this
      cases act with
      | spawn =>
        cases hsp : spawnProcess spawnOk ((c0 :: cs).length - 1)
            ((c0 :: cs).getLast (List.cons_ne_nil c0 cs)) with
        | none =>
          refine ⟨m, hm2, Or.inl ?_⟩
          simp only [run, hrl, terminalAction, hsp]
          rw [List.range_eq_range']
          simpa using htr
        | some ch =>
          refine ⟨m + 1, by simp only [List.length_cons]; omega, Or.inl ?_⟩
          simp only [run, hrl, terminalAction, hsp]
          rw [List.range_succ, List.range_eq_range']
          simp only [List.map_append, List.map_cons, List.map_nil]
          rw [htr]
          simp [hmlen]
      | status =>
        cases hsp : spawnProcess spawnOk ((c0 :: cs).length - 1)
            ((c0 :: cs).getLast (List.cons_ne_nil c0 cs)) with
        | none =>
          refine ⟨m, hm2, Or.inl ?_⟩
          simp only [run, hrl, terminalAction, hsp]
          rw [List.range_eq_range']
          simpa using htr
        | some ch =>
          refine ⟨m + 1, by simp only [List.length_cons]; omega, Or.inr ?_⟩
          simp only [run, hrl, terminalAction, hsp]
          rw [List.range_succ, List.range_eq_range']
          simp only [List.map_append, List.map_cons, List.map_nil]
          rw [htr]
          simp [hmlen]
      | output =>
        cases hsp : spawnProcess spawnOk ((c0 :: cs).length - 1)
            { (c0 :: cs).getLast (List.cons_ne_nil c0 cs) with stdoutCfg := Stdio.piped } with
        | none =>
          refine ⟨m, hm2, Or.inl ?_⟩
          simp only [run, hrl, terminalAction, hsp]
          rw [List.range_eq_range']
          simpa using htr
        | some ch =>
          refine ⟨m + 1, by simp only [List.length_cons]; omega, Or.inr ?_⟩
          simp only [run, hrl, terminalAction, hsp]
          rw [List.range_succ, List.range_eq_range']
          simp only [List.map_append, List.map_cons, List.map_nil]
          rw [htr]
          simp [hmlen]

theorem spawnIdxs_map_spawned (l : List Nat) :
    spawnIdxs (l.map Event.spawned) = l := by
  induction l with
  | nil => rfl
  | cons a l ih => simp [spawnIdxs, ih]

theorem spawnIdxs_map_spawned_append (l : List Nat) (k : Nat) :
    spawnIdxs (l.map Event.spawned ++ [Event.waited k]) = l := by
  induction l with
  | nil => rfl
  | cons a l ih => simp [spawnIdxs, ih]

theorem dropWhile_spawned_append (l : List Nat) (r : List Event) :
    ((l.map Event.spawned) ++ r).dropWhile isSpawnEvent = r.dropWhile isSpawnEvent := by
  induction l with
  | nil => rfl
  | cons a l ih => simp [List.dropWhile, isSpawnEvent, ih]

theorem all_reapFree_spawned (n : Nat) (l : List Nat) :
    (l.map Event.spawned).all (reapFree n) = true := by
  induction l with
  | nil => rfl
  | cons a l ih => simp [reapFree, ih]

end Procmd

namespace Procmd

/-- Claim C1 (code bug witness): on the two-stage pipeline `echo hello | wc -l`
executed via `spawn`, the loop of `PipeCommand::run` spawns stage 0 with piped
stdout, but the terminal stage is handed to the terminal action with its stdin
configuration still `inherit` — stage 0's captured stdout is never attached to
it, because the loop iterates only over `commands[..commands_len - 1]` and the
`i == commands_len - 1` arm that would wire (and not spawn) the last command
is unreachable there.  The claim (and the crate's own piping documentation)
requires the terminal stage's stdin to be stage n-2's stdout. -/
theorem claim_c1_terminal_stdin_not_attached :
    run (fun _ => true) TermAction.spawn
      [⟨"echo", ["hello"], Stdio.inherit, Stdio.inherit⟩,
       ⟨"wc", ["-l"], Stdio.inherit, Stdio.inherit⟩] =
    ([⟨"echo", ["hello"], Stdio.inherit, Stdio.piped⟩,
      ⟨"wc", ["-l"], Stdio.inherit, Stdio.inherit⟩],
     [Event.spawned 0, Event.spawned 1],
     Except.ok (TermResult.handle ⟨1, none⟩)) ∧
    ((run (fun _ => true) TermAction.spawn
      [⟨"echo", ["hello"], Stdio.inherit, Stdio.inherit⟩,
       ⟨"wc", ["-l"], Stdio.inherit, Stdio.inherit⟩]).1).getLast? =
      some ⟨"wc", ["-l"], Stdio.inherit, Stdio.inherit⟩ :=
  ⟨rfl, rfl⟩

/-- Claim C2 (counterexample): executing an empty pipeline does not return a
`ConfigurationError`; it panics.  The run of the empty command list yields
`RunError.emptyPanic`, the embedding of the documented runtime panic of
`PipeCommand::run` (`commands_len - 1` underflow / out-of-range slice), and
the crate defines no configuration-error value at all. -/
theorem claim_c2_counterexample :
    run (fun _ => true) TermAction.spawn ([] : List Command) =
      ([], [], Except.error RunError.emptyPanic) := rfl

/-- Claim C2 (amended): executing a pipeline whose stage sequence is empty,
via any of the three operations and under any spawn oracle, panics (the
documented `commands_len - 1` underflow / slice panic, modelled by
`RunError.emptyPanic`) before any spawn attempt — the event trace is empty
and no command is touched. -/
theorem claim_c2_amended :
    ∀ (spawnOk : Nat → Bool) (act : TermAction),
      run spawnOk act [] = ([], [], Except.error RunError.emptyPanic) := by
  intro spawnOk act
  rfl

/-- Claim C3: if every stage before `i` spawns successfully and spawning
non-terminal stage `i` fails, every execution operation aborts immediately:
the trace contains exactly the spawns of stages `0..i-1` (no later stage and
no terminal action is spawned, nothing is waited on or killed), the operation
returns the spawn error for stage `i` (no partial-success value), and every
command after stage `i` — the terminal stage included — is returned
untouched. -/
theorem claim_c3_spawn_failure_aborts (spawnOk : Nat → Bool) (act : TermAction)
    (cmds : List Command) (i : Nat)
    (hi : i + 1 < cmds.length)
    (hok : ∀ j, j < i → spawnOk j = true)
    (hfail : spawnOk i = false) :
    (run spawnOk act cmds).2.1 = (List.range i).map Event.spawned ∧
    (run spawnOk act cmds).2.2 = Except.error (RunError.spawnError i) ∧
    ((run spawnOk act cmds).1).length = cmds.length ∧
    ((run spawnOk act cmds).1).drop (i + 1) = cmds.drop (i + 1) := by
  cases cmds with
  | nil => simp at hi
  | cons c0 cs =>
    obtain ⟨csf, hrl, hlen, hdrop⟩ := runLoop_fail spawnOk (c0 :: cs).length
      ((c0 :: cs).dropLast) 0 none i trivial (by simp)
      (by simp only [List.length_dropLast, List.length_cons] at *; omega)
      (by intro j hj; simpa using hok j hj)
      (by simpa using hfail)
    simp only [Nat.zero_add] at hrl
    refine ⟨?_, ?_, ?_, ?_⟩
    · simp only [run, hrl]
      rw [List.range_eq_range']
    · simp only [run, hrl]
    · simp only [run, hrl]
      simp only [List.length_append, List.length_cons, List.length_nil]
      rw [hlen]
      simp
    · simp only [run, hrl]
      rw [List.drop_append_of_le_length
        (by rw [hlen]; simp only [List.length_dropLast, List.length_cons] at hi ⊢; omega)]
      rw [hdrop]
      exact dropLast_drop_getLast (c0 :: cs) (List.cons_ne_nil c0 cs) (i + 1)
        (by simpa using hi)

/-- Claim C3 witness: concrete instance — three stages, stage 0 spawns, stage
1 fails to spawn; the `status` operation returns the spawn error for stage 1
after tracing only the spawn of stage 0, and leaves the commands after stage
1 untouched. -/
theorem claim_c3_spawn_failure_aborts_witness :
    (run (fun j => j == 0) TermAction.status
      [⟨"a", [], Stdio.inherit, Stdio.inherit⟩, ⟨"b", [], Stdio.inherit, Stdio.inherit⟩,
       ⟨"c", [], Stdio.inherit, Stdio.inherit⟩]).2.1 =
        (List.range 1).map Event.spawned ∧
    (run (fun j => j == 0) TermAction.status
      [⟨"a", [], Stdio.inherit, Stdio.inherit⟩, ⟨"b", [], Stdio.inherit, Stdio.inherit⟩,
       ⟨"c", [], Stdio.inherit, Stdio.inherit⟩]).2.2 =
        Except.error (RunError.spawnError 1) ∧
    ((run (fun j => j == 0) TermAction.status
      [⟨"a", [], Stdio.inherit, Stdio.inherit⟩, ⟨"b", [], Stdio.inherit, Stdio.inherit⟩,
       ⟨"c", [], Stdio.inherit, Stdio.inherit⟩]).1).length =
      ([⟨"a", [], Stdio.inherit, Stdio.inherit⟩, ⟨"b", [], Stdio.inherit, Stdio.inherit⟩,
        ⟨"c", [], Stdio.inherit, Stdio.inherit⟩] : List Command).length ∧
    ((run (fun j => j == 0) TermAction.status
      [⟨"a", [], Stdio.inherit, Stdio.inherit⟩, ⟨"b", [], Stdio.inherit, Stdio.inherit⟩,
       ⟨"c", [], Stdio.inherit, Stdio.inherit⟩]).1).drop (1 + 1) =
      ([⟨"a", [], Stdio.inherit, Stdio.inherit⟩, ⟨"b", [], Stdio.inherit, Stdio.inherit⟩,
        ⟨"c", [], Stdio.inherit, Stdio.inherit⟩] : List Command).drop (1 + 1) :=
  claim_c3_spawn_failure_aborts (fun j => j == 0) TermAction.status
    [⟨"a", [], Stdio.inherit, Stdio.inherit⟩, ⟨"b", [], Stdio.inherit, Stdio.inherit⟩,
     ⟨"c", [], Stdio.inherit, Stdio.inherit⟩] 1
    (by decide)
    (by intro j hj
        have hj0 : j = 0 := by omega
        subst hj0
        rfl)
    rfl

end Procmd

namespace Procmd

/-- Claim C6: a single-stage pipeline degenerates exactly to running one
process.  For every spawn oracle and every one of the three operations,
executing the one-command pipeline returns the sole command untouched (no
stdin or stdout redirection is attached to it), produces exactly the events
of directly executing that process (no extra process is spawned), and
returns the direct execution's result. -/
theorem claim_c6_single_stage_direct :
    ∀ (spawnOk : Nat → Bool) (act : TermAction) (c : Command),
      run spawnOk act [c] =
        ([c], (directSingle spawnOk act c).1, (directSingle spawnOk act c).2) := by
  intro spawnOk act c
  cases act with
  | spawn =>
    cases h : spawnProcess spawnOk 0 c with
    | none => simp [run, runLoop, terminalAction, directSingle, h]
    | some ch => simp [run, runLoop, terminalAction, directSingle, h]
  | status =>
    cases h : spawnProcess spawnOk 0 c with
    | none => simp [run, runLoop, terminalAction, directSingle, h]
    | some ch => simp [run, runLoop, terminalAction, directSingle, h]
  | output =>
    cases h : spawnProcess spawnOk 0 { c with stdoutCfg := Stdio.piped } with
    | none => simp [run, runLoop, terminalAction, directSingle, h]
    | some ch => simp [run, runLoop, terminalAction, directSingle, h]

/-- Claim C7: in every execution the spawned stage indices form an initial
segment `0, 1, 2, ...` in increasing order — stage `i` is spawned strictly
before stage `i+1` and never before a lower-indexed stage — and every event
after the spawn prefix concerns only the terminal stage (a wait on stage
`n-1`), so the terminal stage is acted upon last. -/
theorem claim_c7_spawn_order :
    ∀ (spawnOk : Nat → Bool) (act : TermAction) (cmds : List Command),
      spawnIdxs ((run spawnOk act cmds).2.1) =
        List.range (spawnIdxs ((run spawnOk act cmds).2.1)).length ∧
      (((run spawnOk act cmds).2.1).dropWhile isSpawnEvent).all
        (fun e => decide (e = Event.waited (cmds.length - 1))) = true := by
  intro spawnOk act cmds
  obtain ⟨m, hm, hc⟩ := run_trace_cases spawnOk act cmds
  cases hc with
  | inl h =>
    rw [h]
    refine ⟨?_, ?_⟩
    · rw [spawnIdxs_map_spawned, List.length_range]
    · have hd := dropWhile_spawned_append (List.range m) []
      rw [List.append_nil] at hd
      rw [hd]
      rfl
  | inr h =>
    rw [h]
    refine ⟨?_, ?_⟩
    · rw [spawnIdxs_map_spawned_append, List.length_range]
    · rw [dropWhile_spawned_append]
      simp [List.dropWhile, isSpawnEvent]

/-- Claim C9: no execution mode ever reaps or kills a non-terminal stage:
every event of the trace is either a spawn, or a wait on the terminal stage
`n - 1`; no kill event ever occurs and no wait concerns a stage other than
the terminal one. -/
theorem claim_c9_no_reap_nonterminal :
    ∀ (spawnOk : Nat → Bool) (act : TermAction) (cmds : List Command),
      ((run spawnOk act cmds).2.1).all (reapFree cmds.length) = true := by
  intro spawnOk act cmds
  obtain ⟨m, hm, hc⟩ := run_trace_cases spawnOk act cmds
  cases hc with
  | inl h =>
    rw [h]
    exact all_reapFree_spawned cmds.length (List.range m)
  | inr h =>
    rw [h]
    rw [List.all_append]
    refine (Bool.and_eq_true _ _).mpr ⟨all_reapFree_spawned cmds.length (List.range m), ?_⟩
    simp [reapFree]

theorem terminalAction_not_unwrap (spawnOk : Nat → Bool) (act : TermAction) (i : Nat)
    (c : Command) :
    isUnwrapPanic ((terminalAction spawnOk act i c).2.2) = false := by
  cases act with
  | spawn => cases h : spawnProcess spawnOk i c <;> simp [terminalAction, h, isUnwrapPanic]
  | status => cases h : spawnProcess spawnOk i c <;> simp [terminalAction, h, isUnwrapPanic]
  | output => cases h : spawnProcess spawnOk i { c with stdoutCfg := Stdio.piped } <;>
      simp [terminalAction, h, isUnwrapPanic]

/-- Claim C10: the `child.stdout.unwrap()` call in the spawn loop can never
panic: whenever a stage's stdin is attached from the previously spawned
child, that child was spawned with piped stdout, so its stdout handle is
present.  No execution, under any oracle, ever produces the modelled unwrap
panic. -/
theorem claim_c10_unwrap_never_panics :
    ∀ (spawnOk : Nat → Bool) (act : TermAction) (cmds : List Command),
      isUnwrapPanic ((run spawnOk act cmds).2.2) = false := by
  intro spawnOk act cmds
  cases cmds with
  | nil => rfl
  | cons c0 cs =>
    have hnu := runLoop_no_unwrap spawnOk (c0 :: cs).length ((c0 :: cs).dropLast) 0 none
      trivial
    rcases hrl : runLoop spawnOk (c0 :: cs).length ((c0 :: cs).dropLast) 0 none
      with ⟨pre, evs, res⟩
    rw [hrl] at hnu
    simp only at hnu
    cases res with
    | error e =>
      simp only [run, hrl]
      cases e with
      | emptyPanic => rfl
      | unwrapPanic => exact absurd rfl hnu
      | spawnError i => rfl
    | ok child =>
      simp only [run, hrl]
      rcases hta : terminalAction spawnOk act ((c0 :: cs).length - 1)
          ((c0 :: cs).getLast (List.cons_ne_nil c0 cs)) with ⟨lst, evs2, r⟩
      have h2 := terminalAction_not_unwrap spawnOk act ((c0 :: cs).length - 1)
        ((c0 :: cs).getLast (List.cons_ne_nil c0 cs))
      rw [hta] at h2
      simpa using h2

/-- Claim C8: execution never mutates the program name or argument list of
any stage: for every oracle, operation and pipeline, the commands returned by
the run have, stage for stage, the same program and the same arguments as the
input pipeline (the runner's wiring only touches the stdio configuration). -/
theorem claim_c8_program_args_preserved :
    ∀ (spawnOk : Nat → Bool) (act : TermAction) (cmds : List Command),
      ((run spawnOk act cmds).1).map progArgs = cmds.map progArgs := by
  intro spawnOk act cmds
  cases cmds with
  | nil => rfl
  | cons c0 cs =>
    have hpre := runLoop_preserves spawnOk (c0 :: cs).length ((c0 :: cs).dropLast) 0 none
    rcases hrl : runLoop spawnOk (c0 :: cs).length ((c0 :: cs).dropLast) 0 none
      with ⟨pre, evs, res⟩
    rw [hrl] at hpre
    simp only at hpre
    have hsplit : (c0 :: cs).map progArgs =
        ((c0 :: cs).dropLast).map progArgs ++
          [progArgs ((c0 :: cs).getLast (List.cons_ne_nil c0 cs))] := by
      conv_lhs => rw [← List.dropLast_append_getLast (List.cons_ne_nil c0 cs)]
      rw [List.map_append, List.map_cons, List.map_nil]
    cases res with
    | error e =>
      simp only [run, hrl]
      rw [List.map_append, hpre, List.map_cons, List.map_nil, ← hsplit]
    | ok child =>
      simp only [run, hrl]
      rcases hta : terminalAction spawnOk act ((c0 :: cs).length - 1)
          ((c0 :: cs).getLast (List.cons_ne_nil c0 cs)) with ⟨lst, evs2, r⟩
      have hlst : lst = (c0 :: cs).getLast (List.cons_ne_nil c0 cs) := by
        have hfst := terminalAction_fst spawnOk act ((c0 :: cs).length - 1)
          ((c0 :: cs).getLast (List.cons_ne_nil c0 cs))
        rw [hta] at hfst
        exact hfst
      simp only [hta]
      rw [List.map_append, hpre, List.map_cons, List.map_nil, hlst, ← hsplit]

end Procmd

namespace ProcmdDsl

theorem parseArgsRest_length :
    ∀ (N : Nat) (ts : List Tok), ts.length ≤ N → ∀ (as : List String) (r : List Tok),
      parseArgsRest ts = Except.ok (as, r) → r.length ≤ ts.length := by
  intro N
  induction N with
  | zero =>
    intro ts hts as r h
    have hnil : ts = [] := List.length_eq_zero.mp (Nat.le_zero.mp hts)
    subst hnil
    simp only [parseArgsRest] at h
    obtain ⟨h1, h2⟩ := by simpa using h
    subst h2
    exact le_rfl
  | succ N ihN =>
    intro ts hts as r h
    cases ts with
    | nil =>
      obtain ⟨h1, h2⟩ := by simpa [parseArgsRest] using h
      subst h2
      exact le_rfl
    | cons t rest1 =>
      cases t with
      | expr s =>
        obtain ⟨h1, h2⟩ := by simpa [parseArgsRest] using h
        subst h2
        exact le_rfl
      | arrow =>
        obtain ⟨h1, h2⟩ := by simpa [parseArgsRest] using h
        subst h2
        exact le_rfl
      | comma =>
        cases rest1 with
        | nil => simp [parseArgsRest] at h
        | cons t2 rest2 =>
          cases t2 with
          | expr s =>
            rcases hrec : parseArgsRest rest2 with e | ⟨as2, r2⟩
            · simp [parseArgsRest, hrec] at h
            · obtain ⟨h1, h2⟩ := by simpa [parseArgsRest, hrec] using h
              subst h2
              have := ihN rest2 (by simp only [List.length_cons] at hts; omega) as2 r2 hrec
              simp only [List.length_cons]
              omega
          | comma => simp [parseArgsRest] at h
          | arrow => simp [parseArgsRest] at h

theorem parseCommand_length (ts : List Tok) (c : Command) (r : List Tok)
    (h : parseCommand ts = Except.ok (c, r)) : r.length < ts.length := by
  cases ts with
  | nil => simp [parseCommand] at h
  | cons t rest =>
    cases t with
    | expr s =>
      rcases hrec : parseArgsRest rest with e | ⟨as, r2⟩
      · simp [parseCommand, hrec] at h
      · obtain ⟨h1, h2⟩ := by simpa [parseCommand, hrec] using h
        subst h2
        have := parseArgsRest_length rest.length rest le_rfl as r2 hrec
        simp only [List.length_cons]
        omega
    | comma => simp [parseCommand] at h
    | arrow => simp [parseCommand] at h

theorem okTailB_comma (fuel : Nat) (s : String) (rest : List Tok) :
    okTailB fuel (Tok.comma :: Tok.expr s :: rest) = okTailB fuel rest := by
  rcases hrec : parseArgsRest rest with e | ⟨as, r⟩ <;>
    simp [okTailB, parseArgsRest, hrec]

theorem okTailB_eq_wfAfterExpr :
    ∀ (N : Nat) (rest : List Tok), rest.length ≤ N → ∀ (fuel : Nat), rest.length ≤ fuel →
      okTailB fuel rest = wfAfterExpr rest := by
  intro N
  induction N with
  | zero =>
    intro rest hN fuel hfuel
    have hnil : rest = [] := List.length_eq_zero.mp (Nat.le_zero.mp hN)
    subst hnil
    cases fuel <;> rfl
  | succ N ihN =>
    intro rest hN fuel hfuel
    cases rest with
    | nil => cases fuel <;> rfl
    | cons t rest1 =>
      cases fuel with
      | zero => simp at hfuel
      | succ f =>
        cases t with
        | comma =>
          cases rest1 with
          | nil => rfl
          | cons t2 rest2 =>
            cases t2 with
            | expr s =>
              rw [okTailB_comma]
              have h1 : wfAfterExpr (Tok.comma :: Tok.expr s :: rest2) =
                  wfAfterExpr rest2 := rfl
              rw [h1]
              exact ihN rest2 (by simp only [List.length_cons] at hN; omega) (f + 1)
                (by simp only [List.length_cons] at hfuel; omega)
            | comma => rfl
            | arrow => rfl
        | expr s => rfl
        | arrow =>
          cases rest1 with
          | nil => rfl
          | cons t2 rest2 =>
            cases t2 with
            | expr s =>
              have hNr : rest2.length ≤ N := by
                simp only [List.length_cons] at hN; omega
              have hfr : rest2.length ≤ f := by
                simp only [List.length_cons] at hfuel; omega
              have hR : wfAfterExpr (Tok.arrow :: Tok.expr s :: rest2) =
                  wfAfterExpr rest2 := rfl
              rcases hrec : parseArgsRest rest2 with e | ⟨as2, r2⟩
              · have hL : okTailB (f + 1) (Tok.arrow :: Tok.expr s :: rest2) = false := by
                  simp [okTailB, parseArgsRest, parseCommandsRest, parseCommand, hrec]
                have hR2 : wfAfterExpr rest2 = false := by
                  rw [← ihN rest2 hNr f hfr]
                  simp [okTailB, hrec]
                rw [hL, hR, hR2]
              · have hL : okTailB (f + 1) (Tok.arrow :: Tok.expr s :: rest2) =
                    okTailB f rest2 := by
                  rcases hcr : parseCommandsRest f r2 with e2 | cs2 <;>
                    simp [okTailB, parseArgsRest, parseCommandsRest, parseCommand, hrec, hcr]
                rw [hL, hR]
                exact ihN rest2 hNr f hfr
            | comma => rfl
            | arrow => rfl

end ProcmdDsl

namespace ProcmdDsl

/-- Claim C4: parsing the pipeline description `p1, a => p2, b, c => p3`
yields the three-element ordered stage sequence with programs `p1`, `p2`,
`p3` and per-stage argument lists `[a]`, `[b, c]`, `[]`, in source order. -/
theorem claim_c4_parse_three_stage_example :
    parseCommands
      [Tok.expr "p1", Tok.comma, Tok.expr "a",
       Tok.arrow,
       Tok.expr "p2", Tok.comma, Tok.expr "b", Tok.comma, Tok.expr "c",
       Tok.arrow,
       Tok.expr "p3"] =
    Except.ok [⟨"p1", ["a"]⟩, ⟨"p2", ["b", "c"]⟩, ⟨"p3", []⟩] := rfl

/-- Claim C5 (counterexample): the input `p1 p2` — two expressions with no
separator between them — is rejected by the parser (syn demands a `=>` after
the first stage), yet it exhibits none of the three failure conditions the
claim enumerates: the input is not empty, no stage specification is empty,
and there is no dangling pipe separator.  The parser therefore does not fail
"exactly when" the three enumerated conditions hold. -/
theorem claim_c5_counterexample :
    isError (parseCommands [Tok.expr "p1", Tok.expr "p2"]) = true ∧
    claimedFailure [Tok.expr "p1", Tok.expr "p2"] = false := by
  constructor
  · rfl
  · rfl

/-- Claim C5 (amended): the parser fails with a `ParseError` exactly when the
token sequence does not match the grammar
`pipeline := stage ("=>" stage)*, stage := expr ("," expr)*` — that is, when
the input is empty, when a separator (comma or `=>`) is not immediately
followed by an expression (which subsumes empty stage specifications,
dangling pipe separators and dangling commas), or when two expressions occur
with no separator between them; otherwise it produces a non-empty ordered
stage sequence. -/
theorem claim_c5_parse_error_iff_not_grammar :
    ∀ ts : List Tok,
      isError (parseCommands ts) = !wfPipeline ts ∧
      okNonempty (parseCommands ts) = wfPipeline ts := by
  intro ts
  cases ts with
  | nil => exact ⟨rfl, rfl⟩
  | cons t rest =>
    cases t with
    | comma => exact ⟨rfl, rfl⟩
    | arrow => exact ⟨rfl, rfl⟩
    | expr s =>
      have hok := okTailB_eq_wfAfterExpr rest.length rest le_rfl (rest.length + 1)
        (by omega)
      have hwfp : wfPipeline (Tok.expr s :: rest) = wfAfterExpr rest := rfl
      rcases hrec : parseArgsRest rest with e | ⟨as, r⟩
      · have hwf2 : wfAfterExpr rest = false := by
          rw [← hok]; simp [okTailB, hrec]
        have hpc : parseCommands (Tok.expr s :: rest) = Except.error e := by
          simp [parseCommands, parseCommand, hrec]
        rw [hwfp, hwf2, hpc]
        exact ⟨rfl, rfl⟩
      · rcases hcr : parseCommandsRest (rest.length + 1) r with e2 | cs
        · have hwf2 : wfAfterExpr rest = false := by
            rw [← hok]; simp [okTailB, hrec, hcr]
          have hpc : parseCommands (Tok.expr s :: rest) = Except.error e2 := by
            simp [parseCommands, parseCommand, hrec, hcr]
          rw [hwfp, hwf2, hpc]
          exact ⟨rfl, rfl⟩
        · have hwf2 : wfAfterExpr rest = true := by
            rw [← hok]; simp [okTailB, hrec, hcr]
          have hpc : parseCommands (Tok.expr s :: rest) = Except.ok (⟨s, as⟩ :: cs) := by
            simp [parseCommands, parseCommand, hrec, hcr]
          rw [hwfp, hwf2, hpc]
          exact ⟨rfl, rfl⟩

end ProcmdDsl
